import Mathlib

/-!
Shallow embedding of the Method of Moderation consumption-saving solver
(code/moderation.py of econ-ark/method-of-moderation), with theorems checking
the natural-language specification against the code.

Modelling conventions:
- Python float arithmetic is modelled over the real numbers.
- numpy arrays are modelled as lists of reals; elementwise numpy operations
  become List.map / List.zipWith.
- Duck-typed Python callables that expose both a call and a derivative method
  are modelled by the structure DiffFunc.
- Functions of the external HARK library (not part of this repository) that the
  source calls are modelled from the specification; each such definition has a
  doc comment starting with: Modelled from the spec.
- A Python function that can raise returns an Except value here; a function
  with no raise statement returns its value directly.
-/

open Real

noncomputable section

namespace MoM

/-- Errors raised by the embedded code (Python ValueError). -/
inductive ValueError
  | dydx_required
  | invalid_parameters
  deriving DecidableEq, Repr

/-- Source log_mnrm_ex: mu = log(m - m_min), implemented as np.log1p(m - m_min - 1). -/
def log_mnrm_ex (m m_min : ℝ) : ℝ := Real.log (1 + (m - m_min - 1))

/-- Source exp_mu: m = exp(mu) + m_min, implemented as np.expm1(mu) + m_min + 1. -/
def exp_mu (mu m_min : ℝ) : ℝ := (Real.exp mu - 1) + m_min + 1

/-- Source expit_moderate: omega = 1 / (1 + exp(-chi)). -/
def expit_moderate (chi : ℝ) : ℝ := 1 / (1 + Real.exp (-chi))

/-- Source logit_moderate: chi = log(omega) - log1p(-omega). -/
def logit_moderate (omega : ℝ) : ℝ := Real.log omega - Real.log (1 + (-omega))

/-- Source moderate: omega = (f_real - f_pess(m)) / (f_opt(m) - f_pess(m)),
scalar form of the numpy-vectorized original. -/
def moderate (m : ℝ) (f_opt : ℝ → ℝ) (f_real : ℝ) (f_pess : ℝ → ℝ) : ℝ :=
  (f_real - f_pess m) / (f_opt m - f_pess m)

/-- Source moderate_tight: moderation ratio against the tighter upper bound,
scalar form of the numpy-vectorized original. -/
def moderate_tight (m mNrmMin cNrm MPCmin MPCmax : ℝ) : ℝ :=
  let mNrmEx := m - mNrmMin
  let c_pes := MPCmin * mNrmEx
  let c_tight := MPCmax * mNrmEx
  (cNrm - c_pes) / (c_tight - c_pes)

/-- A Python callable exposing a call method and a derivative method. -/
structure DiffFunc where
  call : ℝ → ℝ
  derivative : ℝ → ℝ

/-- Source PerfForesightFunc: the linear function f(x) = (x + intercept) * slope. -/
structure PerfForesightFunc where
  intercept : ℝ
  slope : ℝ

/-- Source PerfForesightFunc call: (m + intercept) * slope. -/
def PerfForesightFunc.call (f : PerfForesightFunc) (m : ℝ) : ℝ :=
  (m + f.intercept) * f.slope

/-- Source PerfForesightFunc derivative: the constant slope. -/
def PerfForesightFunc.derivative (f : PerfForesightFunc) (_m : ℝ) : ℝ := f.slope

/-- View of a PerfForesightFunc as a generic differentiable callable. -/
def PerfForesightFunc.toDiffFunc (f : PerfForesightFunc) : DiffFunc :=
  ⟨f.call, f.derivative⟩

/-- Source TransformedFunctionMoM: the moderated-function wrapper.  The two
interpolant fields and the two bounding callables are stored as generic
differentiable callables, covering any interpolant together with its own
extrapolation rule. -/
structure TransformedFunctionMoM where
  mNrmMin : ℝ
  modRteFunc : DiffFunc
  logitModRteFunc : DiffFunc
  optimist_func : DiffFunc
  pessimist_func : DiffFunc
  MPCminOpt : Option ℝ
  MPCmaxOpt : Option ℝ

/-- Source TransformedFunctionMoM call: mu = log_mnrm_ex(m, mNrmMin),
chi = logitModRteFunc(mu), omega = expit_moderate(chi),
result = f_pes + omega * (f_opt - f_pes). -/
def TransformedFunctionMoM.call (F : TransformedFunctionMoM) (m : ℝ) : ℝ :=
  let mu := log_mnrm_ex m F.mNrmMin
  let f_opt := F.optimist_func.call m
  let f_pes := F.pessimist_func.call m
  let chi := F.logitModRteFunc.call mu
  let omega := expit_moderate chi
  f_pes + omega * (f_opt - f_pes)

/-- Source TransformedFunctionMoM derivative.  The numpy allclose comparison of
the two bound slopes is modelled as exact equality over the reals; the
derivativeX/derivative dispatch collapses since DiffFunc always has a
derivative. -/
def TransformedFunctionMoM.derivative (F : TransformedFunctionMoM) (m : ℝ) : ℝ :=
  let mu := log_mnrm_ex m F.mNrmMin
  let f_opt := F.optimist_func.call m
  let f_pes := F.pessimist_func.call m
  let f_opt_prime := F.optimist_func.derivative m
  let f_pes_prime := F.pessimist_func.derivative m
  let m_ex := m - F.mNrmMin
  let h_ex := f_opt - f_pes
  let chi := F.logitModRteFunc.call mu
  let omega := expit_moderate chi
  let chi_prime_mu := F.logitModRteFunc.derivative mu
  if f_opt_prime = f_pes_prime then
    let MPCmin := f_opt_prime
    let h_nrm_ex := h_ex / MPCmin
    let omega_prime_mu := omega * (1 - omega) * chi_prime_mu
    MPCmin * (1 + (h_nrm_ex / m_ex) * omega_prime_mu)
  else
    let dmu_dm := 1 / m_ex
    let d_omega_dm := omega * (1 - omega) * chi_prime_mu * dmu_dm
    f_pes_prime + omega * (f_opt_prime - f_pes_prime) + d_omega_dm * (f_opt - f_pes)

/-- Source calc_cusp_point: intersection of the optimist and tighter upper
bounds, mNrmCusp = -hNrmPes + MPCmin * hNrmEx / (MPCmax - MPCmin). -/
def calc_cusp_point (hNrm mNrmMin MPCmin MPCmax : ℝ) : ℝ :=
  let hNrmPes := -mNrmMin
  let hNrmOpt := hNrm
  let hNrmEx := hNrmOpt - hNrmPes;
  -hNrmPes + MPCmin * hNrmEx / (MPCmax - MPCmin)

/-- Modelled from the spec: the probability-weighted expectation over the
discrete income-shock distribution (HARK expected, external to this
repository).  A distribution is a list of (permanent, transitory) shock pairs
with probability weights. -/
def expected (f : ℝ × ℝ → ℝ) (IncShkDstn : List ((ℝ × ℝ) × ℝ)) : ℝ :=
  (IncShkDstn.map (fun sp => sp.2 * f sp.1)).sum

/-- Modelled from the spec: HARK calc_vp_next, external to this repository.
Spec 4.2 gives the end-of-period expected marginal value as the expectation of
the next-period marginal value evaluated at R * a / Gamma + y, where y is the
transitory income realization; the common prefactor beta_eff * R * Gamma^(-rho)
stays outside the expectation in the source. -/
def calc_vp_next (shock : ℝ × ℝ) (a Rfree CRRA PermGroFac : ℝ)
    (vPfuncNext : ℝ → ℝ) : ℝ :=
  vPfuncNext (Rfree * a / PermGroFac + shock.2)

/-- Modelled from the spec: inverse marginal CRRA utility (HARK
UtilityFuncCRRA derinv with order (1, 0), external to this repository).
Since marginal utility is c^(-rho), its inverse is x^(-1/rho) (spec 4.2
step 3: invert the marginal-utility function). -/
def uFunc_derinv (CRRA x : ℝ) : ℝ := x ^ (-(1 / CRRA))

/-- Source solve_egm_step: shift the asset grid by mNrmMin, compute the
end-of-period expected marginal value, invert the first-order condition for
consumption, and recover market resources m = c + a. -/
def solve_egm_step (aXtraGrid : List ℝ)
    (mNrmMin DiscFacEff Rfree PermGroFac CRRA : ℝ)
    (IncShkDstn : List ((ℝ × ℝ) × ℝ)) (vPfuncNext : ℝ → ℝ) :
    List ℝ × List ℝ × List ℝ × List ℝ :=
  let aNrm := aXtraGrid.map (fun a => a + mNrmMin)
  let vPfacEff := DiscFacEff * Rfree * PermGroFac ^ (-CRRA)
  let EndOfPrdvP := aNrm.map (fun a =>
    vPfacEff *
      expected (fun s => calc_vp_next s a Rfree CRRA PermGroFac vPfuncNext)
        IncShkDstn)
  let cNrm := EndOfPrdvP.map (fun vp => uFunc_derinv CRRA vp)
  let mNrm := List.zipWith (fun c a => c + a) cNrm aNrm
  (aNrm, cNrm, mNrm, EndOfPrdvP)

/-- Modelled from the spec: HARK calc_worst_inc_prob, external to this
repository — the total probability of the worst-case income realization
(minimal product of permanent and transitory shock), with use_infimum=False
so the minimum is over the listed support. -/
def calc_worst_inc_prob (IncShkDstn : List ((ℝ × ℝ) × ℝ)) : ℝ :=
  let incomes := IncShkDstn.map (fun sp => sp.1.1 * sp.1.2)
  let worst := incomes.foldr min incomes.headI
  ((IncShkDstn.filter (fun sp => decide (sp.1.1 * sp.1.2 = worst))).map
    (fun sp => sp.2)).sum

/-- Modelled from the spec: HARK calc_human_wealth, external to this
repository — the recursive annuity formula for the present discounted value
of human wealth from next-period human wealth, growth, the gross return and
expected income. -/
def calc_human_wealth (hNrmNext PermGroFac Rfree Ex_IncNext : ℝ) : ℝ :=
  (PermGroFac / Rfree) * (Ex_IncNext + hNrmNext)

/-- Modelled from the spec: HARK calc_boro_const_nat, external to this
repository — the natural borrowing constraint from the worst-case realization
of the income shock (use_infimum=False, minima over the listed support). -/
def calc_boro_const_nat (mNrmMinNext : ℝ) (IncShkDstn : List ((ℝ × ℝ) × ℝ))
    (Rfree PermGroFac : ℝ) : ℝ :=
  let permShks := IncShkDstn.map (fun sp => sp.1.1)
  let tranShks := IncShkDstn.map (fun sp => sp.1.2)
  let permMin := permShks.foldr min permShks.headI
  let tranMin := tranShks.foldr min tranShks.headI
  (mNrmMinNext - tranMin) * (PermGroFac * permMin) / Rfree

/-- Modelled from the spec: HARK calc_m_nrm_min, external to this repository —
the binding minimum resources is the max of the natural and artificial
constraints, with an absent artificial constraint not binding. -/
def calc_m_nrm_min (BoroCnstArt : Option ℝ) (BoroCnstNat : ℝ) : ℝ :=
  match BoroCnstArt with
  | none => BoroCnstNat
  | some b => max b BoroCnstNat

/-- Modelled from the spec: HARK calc_patience_factor, external to this
repository — the return patience factor (beta_eff R)^(1/rho) / R, carrying
the division by R so downstream MPC formulas need no extra R argument. -/
def calc_patience_factor (Rfree DiscFacEff CRRA : ℝ) : ℝ :=
  ((Rfree * DiscFacEff) ^ (1 / CRRA)) / Rfree

/-- Modelled from the spec: HARK calc_mpc_min, external to this repository —
the standard MPC recursion whose infinite-horizon fixed point is the spec
limit form 1 - patience factor / R. -/
def calc_mpc_min (MPCminNext PatFac : ℝ) : ℝ :=
  1 / (1 + PatFac / MPCminNext)

/-- Modelled from the spec: HARK calc_mpc_max, external to this repository —
the worst-income-probability formula for the unconstrained maximal MPC; the
collapse to 1.0 for a binding artificial constraint happens in the caller
prepare_to_solve, so the constraint arguments are carried but unused here. -/
def calc_mpc_max (MPCmaxNext WorstIncPrb CRRA PatFac BoroCnstNat : ℝ)
    (BoroCnstArt : Option ℝ) : ℝ :=
  1 / (1 + (WorstIncPrb ^ (1 / CRRA)) * PatFac / MPCmaxNext)

/-- Restriction of next-period ConsumerSolution to the scalars
prepare_to_solve reads. -/
structure SolutionNext where
  mNrmMin : ℝ
  hNrm : ℝ
  MPCmin : ℝ
  MPCmax : ℝ

/-- The tuple returned by prepare_to_solve, with the field names of the
source docstring. -/
structure Prepared where
  DiscFacEff : ℝ
  hNrm : ℝ
  BoroCnstNat : ℝ
  mNrmMin : ℝ
  MPCmin : ℝ
  MPCmax : ℝ

/-- Source prepare_to_solve: shared economic parameters and constraints.  The
source body contains no raise statement and no clamping, so the embedding is
a total function. -/
def prepare_to_solve (solution_next : SolutionNext)
    (IncShkDstn : List ((ℝ × ℝ) × ℝ))
    (LivPrb DiscFac CRRA Rfree PermGroFac : ℝ) (BoroCnstArt : Option ℝ) :
    Prepared :=
  let DiscFacEff := DiscFac * LivPrb
  let WorstIncPrb := calc_worst_inc_prob IncShkDstn
  let Ex_IncNext := expected (fun s => s.1 * s.2) IncShkDstn
  let hNrm := calc_human_wealth solution_next.hNrm PermGroFac Rfree Ex_IncNext
  let BoroCnstNat :=
    calc_boro_const_nat solution_next.mNrmMin IncShkDstn Rfree PermGroFac
  let mNrmMin := calc_m_nrm_min BoroCnstArt BoroCnstNat
  let PatFac := calc_patience_factor Rfree DiscFacEff CRRA
  let MPCmin := calc_mpc_min solution_next.MPCmin PatFac
  let MPCmaxUnc := calc_mpc_max solution_next.MPCmax WorstIncPrb CRRA PatFac
    BoroCnstNat BoroCnstArt
  let MPCmax := if BoroCnstNat < mNrmMin then 1 else MPCmaxUnc
  ⟨DiscFacEff, hNrm, BoroCnstNat, mNrmMin, MPCmin, MPCmax⟩

/-- A HARK interpolant (CubicInterp or LinearInterp) recorded as its
construction data: the cubic flag, node lists, optional derivative list, and
the optional extrapolation intercept and slope.  Its evaluation semantics live
in the external HARK library and are abstracted by an evaluation parameter
where needed. -/
structure Interp where
  cubic : Bool
  x_list : List ℝ
  y_list : List ℝ
  dydx_list : Option (List ℝ)
  intercept : Option ℝ
  slope : Option ℝ
  lower_extrap : Bool

/-- Source _create_interpolation: CubicInterp when cubic_bool, requiring
dydx_list (ValueError when it is missing), LinearInterp otherwise; both built
with lower_extrap=True. -/
def create_interpolation (cubic_bool : Bool) (x_list y_list : List ℝ)
    (dydx_list : Option (List ℝ)) (intercept slope : Option ℝ) :
    Except ValueError Interp :=
  if cubic_bool then
    match dydx_list with
    | none => Except.error ValueError.dydx_required
    | some d => Except.ok ⟨true, x_list, y_list, some d, intercept, slope, true⟩
  else
    Except.ok ⟨false, x_list, y_list, none, intercept, slope, true⟩

/-- Source calc_stochastic_mpc: the Merton-Samuelson MPC for iid lognormal
returns, raising ValueError when DiscFac * E[R^(1-CRRA)] is outside (0,1). -/
def calc_stochastic_mpc (DiscFac CRRA RiskyAvg RiskyStd : ℝ) :
    Except ValueError ℝ :=
  let variance_ratio := (RiskyStd / RiskyAvg) ^ (2 : ℕ)
  let log_var := Real.log (1 + variance_ratio)
  let exponent := (1 - CRRA) * (-CRRA) * log_var / 2
  let E_R_power := RiskyAvg ^ (1 - CRRA) * Real.exp exponent
  let inner := DiscFac * E_R_power
  if inner ≤ 0 ∨ 1 ≤ inner then Except.error ValueError.invalid_parameters
  else Except.ok (1 - inner ^ (1 / CRRA))

/-- Source module constants for the moderation extrapolation gaps. -/
def MOM_EXTRAP_GAP_LEFT : ℝ := 0.05

/-- Source module constant: larger rightward extension. -/
def MOM_EXTRAP_GAP_RIGHT : ℝ := 0.5

/-- Modelled from the spec: second derivative of CRRA utility (HARK
UtilityFuncCRRA der with order 2, external to this repository):
since marginal utility is c^(-rho), the second derivative is
-rho * c^(-rho - 1). -/
def uFunc_der2 (CRRA c : ℝ) : ℝ := -CRRA * c ^ (-CRRA - 1)

/-- Source _compute_mpc_vector: dcda = vPP / u''(c), MPC = dcda / (dcda + 1),
elementwise over the grids. -/
def compute_mpc_vector (CRRA : ℝ) (end_of_prd_vpp c_nrm : List ℝ) : List ℝ :=
  List.zipWith (fun vpp c =>
    let dcda := vpp / uFunc_der2 CRRA c
    dcda / (dcda + 1)) end_of_prd_vpp c_nrm

/-- Modelled from the spec: HARK calc_vpp_next, external to this repository —
the next-period marginal-marginal value evaluated at the same next-period
resources as calc_vp_next. -/
def calc_vpp_next (shock : ℝ × ℝ) (a Rfree CRRA PermGroFac : ℝ)
    (vPPfuncNext : ℝ → ℝ) : ℝ :=
  vPPfuncNext (Rfree * a / PermGroFac + shock.2)

/-- Restriction of a HARK ConsumerSolution to the pieces produced by
soln_perf_foresight: a linear consumption function and the inverse-utility
value function of the same form. -/
structure SolnPF where
  cFunc : PerfForesightFunc
  vNvrsFunc : PerfForesightFunc

/-- Source soln_perf_foresight: cFunc = PerfForesightFunc(intercept, slope),
vNvrsFunc = PerfForesightFunc(intercept, slope ^ (-crra / (1 - crra))). -/
def soln_perf_foresight (intercept slope crra : ℝ) : SolnPF :=
  ⟨⟨intercept, slope⟩, ⟨intercept, slope ^ ((-crra) / (1 - crra))⟩⟩

/-- Source make_behavioral_bounds: optimist, pessimist, tighter upper bound. -/
def make_behavioral_bounds (hNrm mNrmMin MPCmin MPCmax CRRA : ℝ) :
    SolnPF × SolnPF × SolnPF :=
  (soln_perf_foresight hNrm MPCmin CRRA,
   soln_perf_foresight (-mNrmMin) MPCmin CRRA,
   soln_perf_foresight (-mNrmMin) MPCmax CRRA)

/-- Source _construct_mom_interpolants: augment the mu, omega and chi grids
with one derivative-extrapolated node on each side (constant extrapolation
when no derivatives are given), then build the omega and chi interpolants.
List heads and last elements use default-zero accessors, matching the source
precondition of a nonempty grid. -/
def construct_mom_interpolants (mu modRte : List ℝ)
    (modRteMu : Option (List ℝ)) (logitModRte : List ℝ)
    (logitModRteMu : Option (List ℝ)) (CubicBool : Bool) :
    Except ValueError (Interp × Interp) :=
  let muAug := (mu.headI - MOM_EXTRAP_GAP_LEFT) ::
    (mu ++ [mu.getLastI + MOM_EXTRAP_GAP_RIGHT])
  let modRtePair :=
    match modRteMu with
    | some d =>
        ((modRte.headI - d.headI * MOM_EXTRAP_GAP_LEFT) ::
          (modRte ++ [modRte.getLastI + d.getLastI * MOM_EXTRAP_GAP_RIGHT]),
         some (d.headI :: (d ++ [d.getLastI])))
    | none => (modRte.headI :: (modRte ++ [modRte.getLastI]),
        (none : Option (List ℝ)))
  let logitPair :=
    match logitModRteMu with
    | some d =>
        ((logitModRte.headI - d.headI * MOM_EXTRAP_GAP_LEFT) ::
          (logitModRte ++
            [logitModRte.getLastI + d.getLastI * MOM_EXTRAP_GAP_RIGHT]),
         some (d.headI :: (d ++ [d.getLastI])))
    | none => (logitModRte.headI :: (logitModRte ++ [logitModRte.getLastI]),
        (none : Option (List ℝ)))
  let modRteDerivatives := if CubicBool then modRtePair.2 else none
  let logitModRteDerivatives := if CubicBool then logitPair.2 else none
  match create_interpolation CubicBool muAug modRtePair.1 modRteDerivatives
      none none,
    create_interpolation CubicBool muAug logitPair.1 logitModRteDerivatives
      none none with
  | Except.ok f1, Except.ok f2 => Except.ok (f1, f2)
  | Except.error e, _ => Except.error e
  | _, Except.error e => Except.error e

/-- Source _build_cfunc_mom: the standard MoM consumption-function build —
moderation ratio and its mu-derivative from the realized MPC grid, logit
transform, interpolants, and the TransformedFunctionMoM wrapper.  The
evaluation semantics of the external HARK interpolants is abstracted by the
interpEval parameter. -/
def build_cfunc_mom (interpEval : Interp → DiffFunc)
    (DiscFacEff Rfree PermGroFac CRRA : ℝ)
    (IncShkDstn : List ((ℝ × ℝ) × ℝ)) (vPPfuncNext : ℝ → ℝ)
    (aNrm cNrm mNrm : List ℝ) (mNrmMin hNrm MPCmin MPCmax : ℝ)
    (CubicBool : Bool) (optimist pessimist : SolnPF) :
    Except ValueError TransformedFunctionMoM :=
  let mNrmEx := mNrm.map (fun m => m - mNrmMin)
  let hNrmEx := hNrm + mNrmMin
  let mu := mNrm.map (fun m => log_mnrm_ex m mNrmMin)
  let vPPfacEff := DiscFacEff * Rfree * Rfree * PermGroFac ^ (-CRRA - 1)
  let EndOfPrdvPP := aNrm.map (fun a =>
    vPPfacEff *
      expected (fun s => calc_vpp_next s a Rfree CRRA PermGroFac vPPfuncNext)
        IncShkDstn)
  let MPC := compute_mpc_vector CRRA EndOfPrdvPP cNrm
  let modRte := List.zipWith
    (fun m c => moderate m optimist.cFunc.call c pessimist.cFunc.call)
    mNrm cNrm
  let modRteMu := List.zipWith
    (fun mEx mpc => mEx * (mpc - MPCmin) / (MPCmin * hNrmEx)) mNrmEx MPC
  let logitModRte := modRte.map logit_moderate
  let logitModRteMu := List.zipWith (fun dmu w => dmu / (w * (1 - w)))
    modRteMu modRte
  Except.map
    (fun p => TransformedFunctionMoM.mk mNrmMin (interpEval p.1)
      (interpEval p.2) optimist.cFunc.toDiffFunc pessimist.cFunc.toDiffFunc
      (some MPCmin) (some MPCmax))
    (construct_mom_interpolants mu modRte (some modRteMu) logitModRte
      (some logitModRteMu) CubicBool)

/-- Source TransformedFunctionMoMCusp: the three-piece cusp wrapper, recorded
as its construction data. -/
structure TransformedFunctionMoMCusp where
  mNrmMin : ℝ
  mNrmCusp : ℝ
  modRteFuncLow : DiffFunc
  logitModRteFuncLow : DiffFunc
  modRteFuncHigh : DiffFunc
  logitModRteFuncHigh : DiffFunc
  optimist_func : DiffFunc
  pessimist_func : DiffFunc
  tight_func : DiffFunc
  MPCminF : ℝ
  MPCmaxF : ℝ

/-- Source _build_cfunc_mom_cusp: split the endogenous grid at the cusp
point; when either side is empty, fall back to the standard MoM build on the
same inputs; otherwise build one moderated piece per side (tighter bound
below the cusp, optimist bound above).  Masked numpy indexing becomes
filtering of the zipped grid rows. -/
def build_cfunc_mom_cusp (interpEval : Interp → DiffFunc)
    (DiscFacEff Rfree PermGroFac CRRA : ℝ)
    (IncShkDstn : List ((ℝ × ℝ) × ℝ)) (vPPfuncNext : ℝ → ℝ)
    (aNrm cNrm mNrm : List ℝ) (mNrmMin hNrm MPCmin MPCmax : ℝ)
    (CubicBool : Bool) (optimist pessimist tighter : SolnPF) :
    Except ValueError (TransformedFunctionMoM ⊕ TransformedFunctionMoMCusp) :=
  let mNrmCusp := calc_cusp_point hNrm mNrmMin MPCmin MPCmax
  let mNrmEx := mNrm.map (fun m => m - mNrmMin)
  let hNrmEx := hNrm + mNrmMin
  let vPPfacEff := DiscFacEff * Rfree * Rfree * PermGroFac ^ (-CRRA - 1)
  let EndOfPrdvPP := aNrm.map (fun a =>
    vPPfacEff *
      expected (fun s => calc_vpp_next s a Rfree CRRA PermGroFac vPPfuncNext)
        IncShkDstn)
  let MPC := compute_mpc_vector CRRA EndOfPrdvPP cNrm
  if (¬ ∃ x ∈ mNrm, x < mNrmCusp) ∨ (¬ ∃ x ∈ mNrm, ¬ x < mNrmCusp) then
    Except.map Sum.inl
      (build_cfunc_mom interpEval DiscFacEff Rfree PermGroFac CRRA IncShkDstn
        vPPfuncNext aNrm cNrm mNrm mNrmMin hNrm MPCmin MPCmax CubicBool
        optimist pessimist)
  else
    let rows := mNrm.zip (cNrm.zip MPC)
    let lowRows := rows.filter (fun r => decide (r.1 < mNrmCusp))
    let mNrm_low := lowRows.map (fun r => r.1)
    let cNrm_low := lowRows.map (fun r => r.2.1)
    let MPC_low := lowRows.map (fun r => r.2.2)
    let mu_low := mNrm_low.map (fun m => log_mnrm_ex m mNrmMin)
    let modRte_low := List.zipWith
      (fun m c => moderate_tight m mNrmMin c MPCmin MPCmax) mNrm_low cNrm_low
    let modRteMu_low := MPC_low.map
      (fun mpc => (mpc - MPCmin) / (MPCmax - MPCmin))
    let logitModRte_low := modRte_low.map logit_moderate
    let logitModRteMu_low := List.zipWith (fun dmu w => dmu / (w * (1 - w)))
      modRteMu_low modRte_low
    let highRows := rows.filter (fun r => !decide (r.1 < mNrmCusp))
    let mNrm_high := highRows.map (fun r => r.1)
    let cNrm_high := highRows.map (fun r => r.2.1)
    let MPC_high := highRows.map (fun r => r.2.2)
    let mNrmEx_high := mNrm_high.map (fun m => m - mNrmMin)
    let mu_high := mNrm_high.map (fun m => log_mnrm_ex m mNrmMin)
    let modRte_high := List.zipWith
      (fun m c => moderate m optimist.cFunc.call c pessimist.cFunc.call)
      mNrm_high cNrm_high
    let modRteMu_high := List.zipWith
      (fun mEx mpc => mEx * (mpc - MPCmin) / (MPCmin * hNrmEx))
      mNrmEx_high MPC_high
    let logitModRte_high := modRte_high.map logit_moderate
    let logitModRteMu_high := List.zipWith (fun dmu w => dmu / (w * (1 - w)))
      modRteMu_high modRte_high
    match construct_mom_interpolants mu_low modRte_low (some modRteMu_low)
        logitModRte_low (some logitModRteMu_low) CubicBool,
      construct_mom_interpolants mu_high modRte_high (some modRteMu_high)
        logitModRte_high (some logitModRteMu_high) CubicBool with
    | Except.ok pl, Except.ok ph =>
        Except.ok (Sum.inr (TransformedFunctionMoMCusp.mk mNrmMin mNrmCusp
          (interpEval pl.1) (interpEval pl.2) (interpEval ph.1)
          (interpEval ph.2) optimist.cFunc.toDiffFunc
          pessimist.cFunc.toDiffFunc tighter.cFunc.toDiffFunc MPCmin MPCmax))
    | Except.error e, _ => Except.error e
    | _, Except.error e => Except.error e

end MoM

namespace MoM

/-- Claim C1: for every query point m above mNrmMin, the moderated function
returns f_pessimist(m) + omega * (f_optimist(m) - f_pessimist(m)), where
omega = 1 / (1 + exp(-chi)) and chi is the stored chi-interpolant evaluated at
mu = log(m - mNrmMin); the interpolant is arbitrary here, so its extrapolation
rule outside the original grid is covered. -/
theorem transformed_call_eval (F : TransformedFunctionMoM) (m : ℝ)
    (_h : F.mNrmMin < m) :
    F.call m =
      F.pessimist_func.call m +
        (1 / (1 + Real.exp (-(F.logitModRteFunc.call (Real.log (m - F.mNrmMin)))))) *
          (F.optimist_func.call m - F.pessimist_func.call m) := by
  show F.pessimist_func.call m +
      expit_moderate (F.logitModRteFunc.call (log_mnrm_ex m F.mNrmMin)) *
        (F.optimist_func.call m - F.pessimist_func.call m) = _
  rw [expit_moderate, log_mnrm_ex,
    show (1 : ℝ) + (m - F.mNrmMin - 1) = m - F.mNrmMin by ring]

/-- Witness for C1 at a concrete moderated function and query point. -/
theorem transformed_call_eval_witness :
    (TransformedFunctionMoM.mk 0 ⟨fun x => x, fun _ => 1⟩ ⟨fun x => x, fun _ => 1⟩
        ⟨fun x => x, fun _ => 1⟩ ⟨fun x => x, fun _ => 1⟩ none none).mNrmMin < 2 ∧
    (TransformedFunctionMoM.mk 0 ⟨fun x => x, fun _ => 1⟩ ⟨fun x => x, fun _ => 1⟩
        ⟨fun x => x, fun _ => 1⟩ ⟨fun x => x, fun _ => 1⟩ none none).call 2 =
      (TransformedFunctionMoM.mk 0 ⟨fun x => x, fun _ => 1⟩ ⟨fun x => x, fun _ => 1⟩
        ⟨fun x => x, fun _ => 1⟩ ⟨fun x => x, fun _ => 1⟩ none none).pessimist_func.call 2 +
        (1 / (1 + Real.exp (-((TransformedFunctionMoM.mk 0 ⟨fun x => x, fun _ => 1⟩
            ⟨fun x => x, fun _ => 1⟩ ⟨fun x => x, fun _ => 1⟩ ⟨fun x => x, fun _ => 1⟩
            none none).logitModRteFunc.call (Real.log (2 - 0)))))) *
          ((TransformedFunctionMoM.mk 0 ⟨fun x => x, fun _ => 1⟩ ⟨fun x => x, fun _ => 1⟩
            ⟨fun x => x, fun _ => 1⟩ ⟨fun x => x, fun _ => 1⟩ none none).optimist_func.call 2 -
           (TransformedFunctionMoM.mk 0 ⟨fun x => x, fun _ => 1⟩ ⟨fun x => x, fun _ => 1⟩
            ⟨fun x => x, fun _ => 1⟩ ⟨fun x => x, fun _ => 1⟩ none none).pessimist_func.call 2) :=
  ⟨by norm_num,
   transformed_call_eval
     (TransformedFunctionMoM.mk 0 ⟨fun x => x, fun _ => 1⟩ ⟨fun x => x, fun _ => 1⟩
       ⟨fun x => x, fun _ => 1⟩ ⟨fun x => x, fun _ => 1⟩ none none) 2 (by norm_num)⟩

/-- Claim C10: evaluation of a moderated function never consults the omega
(modRteFunc) interpolant: two instances agreeing on mNrmMin, the
chi-interpolant and the two bounding callables, but with arbitrary different
modRteFunc fields, have identical call and derivative at every point. -/
theorem transformed_ignores_modRteFunc (F G : TransformedFunctionMoM)
    (h1 : F.mNrmMin = G.mNrmMin)
    (h2 : F.logitModRteFunc = G.logitModRteFunc)
    (h3 : F.optimist_func = G.optimist_func)
    (h4 : F.pessimist_func = G.pessimist_func)
    (m : ℝ) :
    F.call m = G.call m ∧ F.derivative m = G.derivative m := by
  constructor
  · simp only [TransformedFunctionMoM.call, h1, h2, h3, h4]
  · simp only [TransformedFunctionMoM.derivative, h1, h2, h3, h4]

/-- Witness for C10: two concrete instances with different modRteFunc fields
(differing at every point, in value and in derivative) evaluate identically. -/
theorem transformed_ignores_modRteFunc_witness :
    (TransformedFunctionMoM.mk 0 ⟨fun _ => 0, fun _ => 0⟩ ⟨fun x => x, fun _ => 1⟩
        ⟨fun x => x + 3, fun _ => 1⟩ ⟨fun x => x, fun _ => 1⟩ none none).mNrmMin =
      (TransformedFunctionMoM.mk 0 ⟨fun _ => 5, fun _ => 7⟩ ⟨fun x => x, fun _ => 1⟩
        ⟨fun x => x + 3, fun _ => 1⟩ ⟨fun x => x, fun _ => 1⟩ none none).mNrmMin ∧
    ((TransformedFunctionMoM.mk 0 ⟨fun _ => 0, fun _ => 0⟩ ⟨fun x => x, fun _ => 1⟩
        ⟨fun x => x + 3, fun _ => 1⟩ ⟨fun x => x, fun _ => 1⟩ none none).call 2 =
      (TransformedFunctionMoM.mk 0 ⟨fun _ => 5, fun _ => 7⟩ ⟨fun x => x, fun _ => 1⟩
        ⟨fun x => x + 3, fun _ => 1⟩ ⟨fun x => x, fun _ => 1⟩ none none).call 2 ∧
     (TransformedFunctionMoM.mk 0 ⟨fun _ => 0, fun _ => 0⟩ ⟨fun x => x, fun _ => 1⟩
        ⟨fun x => x + 3, fun _ => 1⟩ ⟨fun x => x, fun _ => 1⟩ none none).derivative 2 =
      (TransformedFunctionMoM.mk 0 ⟨fun _ => 5, fun _ => 7⟩ ⟨fun x => x, fun _ => 1⟩
        ⟨fun x => x + 3, fun _ => 1⟩ ⟨fun x => x, fun _ => 1⟩ none none).derivative 2) :=
  ⟨rfl,
   transformed_ignores_modRteFunc
     (TransformedFunctionMoM.mk 0 ⟨fun _ => 0, fun _ => 0⟩ ⟨fun x => x, fun _ => 1⟩
       ⟨fun x => x + 3, fun _ => 1⟩ ⟨fun x => x, fun _ => 1⟩ none none)
     (TransformedFunctionMoM.mk 0 ⟨fun _ => 5, fun _ => 7⟩ ⟨fun x => x, fun _ => 1⟩
       ⟨fun x => x + 3, fun _ => 1⟩ ⟨fun x => x, fun _ => 1⟩ none none)
     rfl rfl rfl rfl 2⟩

/-- Claim C3: whenever MPCmax and MPCmin differ, calc_cusp_point equals
mNrmMin + MPCmin * (hNrm + mNrmMin) / (MPCmax - MPCmin); it is the point where
the optimist bound and the tighter upper bound from make_behavioral_bounds
intersect, and it is the unique such point.  The definition takes no
moderation-ratio regime input, so the value cannot depend on one. -/
theorem calc_cusp_point_spec (hNrm mNrmMin MPCmin MPCmax CRRA : ℝ)
    (hne : MPCmax ≠ MPCmin) :
    calc_cusp_point hNrm mNrmMin MPCmin MPCmax =
        mNrmMin + MPCmin * (hNrm + mNrmMin) / (MPCmax - MPCmin) ∧
      (make_behavioral_bounds hNrm mNrmMin MPCmin MPCmax CRRA).1.cFunc.call
          (calc_cusp_point hNrm mNrmMin MPCmin MPCmax) =
        (make_behavioral_bounds hNrm mNrmMin MPCmin MPCmax CRRA).2.2.cFunc.call
          (calc_cusp_point hNrm mNrmMin MPCmin MPCmax) ∧
      ∀ m : ℝ,
        (make_behavioral_bounds hNrm mNrmMin MPCmin MPCmax CRRA).1.cFunc.call m =
          (make_behavioral_bounds hNrm mNrmMin MPCmin MPCmax CRRA).2.2.cFunc.call m →
        m = calc_cusp_point hNrm mNrmMin MPCmin MPCmax := by
  have hd : MPCmax - MPCmin ≠ 0 := sub_ne_zero_of_ne hne
  refine ⟨?_, ?_, ?_⟩
  · simp only [calc_cusp_point]
    ring
  · simp only [calc_cusp_point, make_behavioral_bounds, soln_perf_foresight,
      PerfForesightFunc.call]
    field_simp
    ring
  · intro m hm
    simp only [make_behavioral_bounds, soln_perf_foresight,
      PerfForesightFunc.call] at hm
    simp only [calc_cusp_point]
    field_simp
    linear_combination -hm

/-- Witness for C3 at concrete parameter values. -/
theorem calc_cusp_point_spec_witness :
    (1 : ℝ) ≠ (1 / 2 : ℝ) ∧
    calc_cusp_point 1 0 (1 / 2) 1 = 0 + (1 / 2) * (1 + 0) / (1 - 1 / 2) :=
  ⟨by norm_num, (calc_cusp_point_spec 1 0 (1 / 2) 1 2 (by norm_num)).1⟩

/-- Claim C6: the interpolant factory raises ValueError exactly when cubic
interpolation is requested without a derivative array; in every other case it
returns an interpolant and raises no error. -/
theorem create_interpolation_contract (cubic_bool : Bool)
    (x_list y_list : List ℝ) (dydx_list : Option (List ℝ))
    (intercept slope : Option ℝ) :
    (cubic_bool = true ∧ dydx_list = none →
      create_interpolation cubic_bool x_list y_list dydx_list intercept slope =
        Except.error ValueError.dydx_required) ∧
    (¬ (cubic_bool = true ∧ dydx_list = none) →
      ∃ f : Interp,
        create_interpolation cubic_bool x_list y_list dydx_list intercept slope =
          Except.ok f) := by
  constructor
  · rintro ⟨hc, hd⟩
    subst hc hd
    rfl
  · intro h
    cases cubic_bool with
    | false => exact ⟨_, rfl⟩
    | true =>
      cases dydx_list with
      | none => exact absurd ⟨rfl, rfl⟩ h
      | some d => exact ⟨_, rfl⟩

/-- Witness for C6: a cubic request without derivatives errors at a concrete
input, and a linear request at the same data succeeds. -/
theorem create_interpolation_contract_witness :
    (true = true ∧ (none : Option (List ℝ)) = none) ∧
    create_interpolation true [0, 1] [0, 1] none none none =
      Except.error ValueError.dydx_required ∧
    ∃ f : Interp,
      create_interpolation false [0, 1] [0, 1] none none none = Except.ok f :=
  ⟨⟨rfl, rfl⟩,
   (create_interpolation_contract true [0, 1] [0, 1] none none none).1 ⟨rfl, rfl⟩,
   (create_interpolation_contract false [0, 1] [0, 1] none none none).2
     (by simp)⟩

/-- Claim C7: calc_stochastic_mpc errors exactly when the discount-adjusted
expectation DiscFac * E[R^(1-CRRA)] lies outside the open interval (0,1),
where E[R^(1-CRRA)] = RiskyAvg^(1-CRRA) * exp((1-CRRA) * (-CRRA) *
log(1 + (RiskyStd/RiskyAvg)^2) / 2); otherwise it returns
1 - (DiscFac * E[R^(1-CRRA)])^(1/CRRA). -/
theorem calc_stochastic_mpc_domain (DiscFac CRRA RiskyAvg RiskyStd inr : ℝ)
    (hinr : inr = DiscFac * (RiskyAvg ^ (1 - CRRA) *
      Real.exp ((1 - CRRA) * (-CRRA) *
        Real.log (1 + (RiskyStd / RiskyAvg) ^ (2 : ℕ)) / 2))) :
    ((∃ e, calc_stochastic_mpc DiscFac CRRA RiskyAvg RiskyStd = Except.error e)
        ↔ ¬ (0 < inr ∧ inr < 1)) ∧
    (0 < inr → inr < 1 →
      calc_stochastic_mpc DiscFac CRRA RiskyAvg RiskyStd =
        Except.ok (1 - inr ^ (1 / CRRA))) := by
  simp only [calc_stochastic_mpc]
  rw [← hinr]
  by_cases h : inr ≤ 0 ∨ 1 ≤ inr
  · rw [if_pos h]
    constructor
    · constructor
      · rintro - ⟨h1, h2⟩
        rcases h with h | h <;> linarith
      · exact fun _ => ⟨_, rfl⟩
    · intro h1 h2
      rcases h with h | h <;> linarith
  · rw [if_neg h]
    push_neg at h
    constructor
    · constructor
      · rintro ⟨e, he⟩
        exact absurd he (by simp)
      · intro hn
        exact absurd ⟨h.1, h.2⟩ hn
    · intro _ _
      rfl

/-- Witness for C7 at concrete, in-domain parameter values. -/
theorem calc_stochastic_mpc_domain_witness :
    ((1 : ℝ) / 2 = (1 / 2 : ℝ) * ((1 : ℝ) ^ ((1 : ℝ) - 1) *
      Real.exp ((1 - 1) * (-1) *
        Real.log (1 + ((0 : ℝ) / 1) ^ (2 : ℕ)) / 2))) ∧
    calc_stochastic_mpc (1 / 2) 1 1 0 =
      Except.ok (1 - ((1 : ℝ) / 2) ^ ((1 : ℝ) / 1)) := by
  have hinr : (1 : ℝ) / 2 = (1 / 2 : ℝ) * ((1 : ℝ) ^ ((1 : ℝ) - 1) *
      Real.exp ((1 - 1) * (-1) *
        Real.log (1 + ((0 : ℝ) / 1) ^ (2 : ℕ)) / 2)) := by
    simp
  exact ⟨hinr,
    (calc_stochastic_mpc_domain (1 / 2) 1 1 0 (1 / 2) hinr).2 (by norm_num)
      (by norm_num)⟩

/-- Claim C8, amended: when CRRA is above one (as in the tested
parameterization), a positive return standard deviation strictly lowers the
stochastic MPC below its deterministic (RiskyStd = 0) value, and the
deterministic value equals 1 - (DiscFac * RiskyAvg)^(1/CRRA) / RiskyAvg.  The
original claim quantified over every CRRA; it fails for CRRA below one (see
the counterexample). -/
theorem calc_stochastic_mpc_risk_reduces
    (DiscFac CRRA RiskyAvg RiskyStd x y : ℝ)
    (hcrra : 1 < CRRA) (hA : 0 < RiskyAvg) (hS : 0 < RiskyStd)
    (hs : calc_stochastic_mpc DiscFac CRRA RiskyAvg RiskyStd = Except.ok x)
    (hd : calc_stochastic_mpc DiscFac CRRA RiskyAvg 0 = Except.ok y) :
    x < y ∧ y = 1 - (DiscFac * RiskyAvg) ^ (1 / CRRA) / RiskyAvg := by
  have hρ : (0 : ℝ) < CRRA := by linarith
  simp only [calc_stochastic_mpc, zero_div, ne_eq, OfNat.ofNat_ne_zero,
    not_false_eq_true, zero_pow, add_zero, Real.log_one, mul_zero, zero_mul,
    Real.exp_zero, mul_one] at hs hd
  split at hs
  · exact absurd hs (by simp)
  split at hd
  · exact absurd hd (by simp)
  rename_i hcs hcd
  push_neg at hcs hcd
  rw [Except.ok.injEq] at hs hd
  have hApow : (0 : ℝ) < RiskyAvg ^ (1 - CRRA) := Real.rpow_pos_of_pos hA _
  have hDpos : 0 < DiscFac := by
    by_contra hcon
    push_neg at hcon
    have : DiscFac * RiskyAvg ^ (1 - CRRA) ≤ 0 :=
      mul_nonpos_of_nonpos_of_nonneg hcon hApow.le
    linarith [hcd.1]
  have hlogpos : 0 < Real.log (1 + (RiskyStd / RiskyAvg) ^ (2 : ℕ)) := by
    have hsq : 0 < (RiskyStd / RiskyAvg) ^ (2 : ℕ) :=
      pow_pos (div_pos hS hA) 2
    exact Real.log_pos (by linarith)
  have hexp : (1 : ℝ) <
      Real.exp ((1 - CRRA) * (-CRRA) *
        Real.log (1 + (RiskyStd / RiskyAvg) ^ (2 : ℕ)) / 2) := by
    have hcoef : 0 < (1 - CRRA) * (-CRRA) := by nlinarith
    have harg : 0 < (1 - CRRA) * (-CRRA) *
        Real.log (1 + (RiskyStd / RiskyAvg) ^ (2 : ℕ)) / 2 :=
      div_pos (mul_pos hcoef hlogpos) (by norm_num)
    have := Real.exp_lt_exp.mpr harg
    rwa [Real.exp_zero] at this
  have hlt : DiscFac * RiskyAvg ^ (1 - CRRA) <
      DiscFac * (RiskyAvg ^ (1 - CRRA) *
        Real.exp ((1 - CRRA) * (-CRRA) *
          Real.log (1 + (RiskyStd / RiskyAvg) ^ (2 : ℕ)) / 2)) := by
    have hbase : 0 < DiscFac * RiskyAvg ^ (1 - CRRA) := hcd.1
    nlinarith [hexp, hbase]
  have hrpow : (DiscFac * RiskyAvg ^ (1 - CRRA)) ^ (1 / CRRA) <
      (DiscFac * (RiskyAvg ^ (1 - CRRA) *
        Real.exp ((1 - CRRA) * (-CRRA) *
          Real.log (1 + (RiskyStd / RiskyAvg) ^ (2 : ℕ)) / 2))) ^ (1 / CRRA) :=
    Real.rpow_lt_rpow hcd.1.le hlt (by positivity)
  constructor
  · rw [← hs, ← hd]
    linarith
  · rw [← hd]
    have hsplit : (DiscFac * RiskyAvg ^ (1 - CRRA)) ^ (1 / CRRA) =
        DiscFac ^ (1 / CRRA) * (RiskyAvg ^ (1 - CRRA)) ^ (1 / CRRA) :=
      Real.mul_rpow hDpos.le hApow.le
    have hAA : (RiskyAvg ^ (1 - CRRA)) ^ (1 / CRRA) =
        RiskyAvg ^ ((1 - CRRA) * (1 / CRRA)) :=
      (Real.rpow_mul hA.le _ _).symm
    have hsub : RiskyAvg ^ ((1 - CRRA) * (1 / CRRA)) =
        RiskyAvg ^ (1 / CRRA) / RiskyAvg := by
      rw [show (1 - CRRA) * (1 / CRRA) = 1 / CRRA - 1 by field_simp,
        Real.rpow_sub hA, Real.rpow_one]
    have hmul : (DiscFac * RiskyAvg) ^ (1 / CRRA) =
        DiscFac ^ (1 / CRRA) * RiskyAvg ^ (1 / CRRA) :=
      Real.mul_rpow hDpos.le hA.le
    rw [hsplit, hAA, hsub, hmul]
    ring

/-- Counterexample for C8: at DiscFac = 1/2, CRRA = 1/2, RiskyAvg = 1 and
RiskyStd = 1 both calls are defined, yet the stochastic MPC is strictly
larger than the deterministic one, refuting the claim for CRRA below one. -/
theorem calc_stochastic_mpc_risk_counterexample :
    calc_stochastic_mpc (1 / 2) (1 / 2) 1 0 = Except.ok (3 / 4) ∧
    calc_stochastic_mpc (1 / 2) (1 / 2) 1 1 =
      Except.ok (1 - Real.exp (-(Real.log 2 / 4)) / 4) ∧
    (3 / 4 : ℝ) < 1 - Real.exp (-(Real.log 2 / 4)) / 4 := by
  have hexplt : Real.exp (-(Real.log 2 / 4)) < 1 := by
    rw [Real.exp_lt_one_iff]
    have := Real.log_pos (by norm_num : (1 : ℝ) < 2)
    linarith
  have hexppos := Real.exp_pos (-(Real.log 2 / 4))
  refine ⟨?_, ?_, by linarith⟩
  · simp only [calc_stochastic_mpc, zero_div, ne_eq, OfNat.ofNat_ne_zero,
      not_false_eq_true, zero_pow, add_zero, Real.log_one, mul_zero, zero_mul,
      Real.exp_zero, mul_one, Real.one_rpow]
    rw [if_neg (by norm_num)]
    rw [show (1 : ℝ) / (1 / 2) = ((2 : ℕ) : ℝ) by norm_num, Real.rpow_natCast]
    norm_num
  · simp only [calc_stochastic_mpc, Real.one_rpow, one_mul]
    have harg : (1 - (1 / 2 : ℝ)) * (-(1 / 2)) *
        Real.log (1 + ((1 : ℝ) / 1) ^ (2 : ℕ)) / 2 = -(Real.log 2 / 8) := by
      norm_num
      ring
    rw [harg]
    have hexplt8 : Real.exp (-(Real.log 2 / 8)) < 1 := by
      rw [Real.exp_lt_one_iff]
      have := Real.log_pos (by norm_num : (1 : ℝ) < 2)
      linarith
    have hexppos8 := Real.exp_pos (-(Real.log 2 / 8))
    rw [if_neg (by push_neg; constructor <;> nlinarith)]
    rw [show (1 : ℝ) / (1 / 2) = ((2 : ℕ) : ℝ) by norm_num, Real.rpow_natCast]
    have hsq : ((1 / 2 : ℝ) * Real.exp (-(Real.log 2 / 8))) ^ (2 : ℕ) =
        Real.exp (-(Real.log 2 / 4)) / 4 := by
      rw [mul_pow, pow_two (Real.exp _), ← Real.exp_add,
        show -(Real.log 2 / 8) + -(Real.log 2 / 8) = -(Real.log 2 / 4) by ring]
      ring
    rw [hsq]

/-- Witness for the amended C8 at DiscFac = 1/2, CRRA = 2, RiskyAvg = 1,
RiskyStd = 1/2, where the stochastic inner value is 5/8 and the deterministic
one is 1/2. -/
theorem calc_stochastic_mpc_risk_reduces_witness :
    (1 : ℝ) < 2 ∧
    (1 - ((5 : ℝ) / 8) ^ ((1 : ℝ) / 2) < 1 - ((1 : ℝ) / 2) ^ ((1 : ℝ) / 2) ∧
      (1 - ((1 : ℝ) / 2) ^ ((1 : ℝ) / 2) =
        1 - ((1 / 2 : ℝ) * 1) ^ ((1 : ℝ) / 2) / 1)) := by
  have hs : calc_stochastic_mpc (1 / 2) 2 1 (1 / 2) =
      Except.ok (1 - ((5 : ℝ) / 8) ^ ((1 : ℝ) / 2)) := by
    simp only [calc_stochastic_mpc, Real.one_rpow, one_mul]
    have harg : (1 - (2 : ℝ)) * (-2) *
        Real.log (1 + ((1 / 2 : ℝ) / 1) ^ (2 : ℕ)) / 2 = Real.log (5 / 4) := by
      norm_num
    rw [harg, Real.exp_log (by norm_num : (0 : ℝ) < 5 / 4)]
    rw [if_neg (by norm_num)]
    norm_num
  have hd : calc_stochastic_mpc (1 / 2) 2 1 0 =
      Except.ok (1 - ((1 : ℝ) / 2) ^ ((1 : ℝ) / 2)) := by
    simp only [calc_stochastic_mpc, zero_div, ne_eq, OfNat.ofNat_ne_zero,
      not_false_eq_true, zero_pow, add_zero, Real.log_one, mul_zero, zero_mul,
      Real.exp_zero, mul_one, Real.one_rpow]
    rw [if_neg (by norm_num)]
  have hmain := calc_stochastic_mpc_risk_reduces (1 / 2) 2 1 (1 / 2)
    (1 - ((5 : ℝ) / 8) ^ ((1 : ℝ) / 2)) (1 - ((1 : ℝ) / 2) ^ ((1 : ℝ) / 2))
    (by norm_num) (by norm_num) (by norm_num) hs hd
  refine ⟨by norm_num, hmain.1, ?_⟩
  rw [hmain.2]

/-- Helper: a strict pointwise inequality on a nonempty list gives a strict
inequality of the mapped sums. -/
theorem list_sum_map_lt {α : Type} {l : List α} (f g : α → ℝ) (hne : l ≠ [])
    (h : ∀ x ∈ l, f x < g x) : (l.map f).sum < (l.map g).sum := by
  induction l with
  | nil => exact absurd rfl hne
  | cons a t ih =>
    simp only [List.map_cons, List.sum_cons]
    rcases eq_or_ne t [] with rfl | hter
    · simpa using h a (by simp)
    · have h1 := h a (by simp)
      have h2 := ih hter (fun x hx => h x (by simp [hx]))
      linarith

/-- Claim C2: solve_egm_step returns four equal-length arrays with
aNrm[i] = aXtraGrid[i] + mNrmMin and mNrm[i] = cNrm[i] + aNrm[i] at every
index, and when the asset grid is strictly increasing and the next-period
marginal value function is strictly decreasing (and positive, as a marginal
utility), aNrm and mNrm are strictly increasing. -/
theorem solve_egm_step_spec (aXtraGrid : List ℝ)
    (mNrmMin DiscFacEff Rfree PermGroFac CRRA : ℝ)
    (IncShkDstn : List ((ℝ × ℝ) × ℝ)) (vPfuncNext : ℝ → ℝ)
    (aNrm cNrm mNrm EndOfPrdvP : List ℝ)
    (hout : solve_egm_step aXtraGrid mNrmMin DiscFacEff Rfree PermGroFac CRRA
        IncShkDstn vPfuncNext = (aNrm, cNrm, mNrm, EndOfPrdvP))
    (hR : 0 < Rfree) (hG : 0 < PermGroFac) (hB : 0 < DiscFacEff)
    (hC : 0 < CRRA) (hne : IncShkDstn ≠ [])
    (hw : ∀ sp ∈ IncShkDstn, 0 < sp.2)
    (hvPanti : StrictAnti vPfuncNext) (hvPpos : ∀ z, 0 < vPfuncNext z) :
    (aNrm.length = aXtraGrid.length ∧ cNrm.length = aXtraGrid.length ∧
      mNrm.length = aXtraGrid.length ∧ EndOfPrdvP.length = aXtraGrid.length) ∧
    (∀ i (ha : i < aNrm.length) (hg : i < aXtraGrid.length),
      aNrm.get ⟨i, ha⟩ = aXtraGrid.get ⟨i, hg⟩ + mNrmMin) ∧
    (∀ i (hm : i < mNrm.length) (hc : i < cNrm.length) (ha : i < aNrm.length),
      mNrm.get ⟨i, hm⟩ = cNrm.get ⟨i, hc⟩ + aNrm.get ⟨i, ha⟩) ∧
    (List.Pairwise (· < ·) aXtraGrid →
      List.Pairwise (· < ·) aNrm ∧ List.Pairwise (· < ·) mNrm) := by
  simp only [solve_egm_step, Prod.mk.injEq] at hout
  obtain ⟨h1, h2, h3, h4⟩ := hout
  subst h1 h2 h3 h4
  have hfac : 0 < DiscFacEff * Rfree * PermGroFac ^ (-CRRA) :=
    mul_pos (mul_pos hB hR) (Real.rpow_pos_of_pos hG _)
  have hEpos : ∀ a : ℝ,
      0 < DiscFacEff * Rfree * PermGroFac ^ (-CRRA) *
        expected (fun s => calc_vp_next s a Rfree CRRA PermGroFac vPfuncNext)
          IncShkDstn := by
    intro a
    refine mul_pos hfac ?_
    refine List.sum_pos _ (fun x hx => ?_) (by simpa using hne)
    simp only [List.mem_map] at hx
    obtain ⟨sp, hsp, rfl⟩ := hx
    exact mul_pos (hw sp hsp) (hvPpos _)
  have hEanti : ∀ x y : ℝ, x < y →
      DiscFacEff * Rfree * PermGroFac ^ (-CRRA) *
        expected (fun s => calc_vp_next s y Rfree CRRA PermGroFac vPfuncNext)
          IncShkDstn <
      DiscFacEff * Rfree * PermGroFac ^ (-CRRA) *
        expected (fun s => calc_vp_next s x Rfree CRRA PermGroFac vPfuncNext)
          IncShkDstn := by
    intro x y hxy
    refine mul_lt_mul_of_pos_left ?_ hfac
    simp only [expected]
    refine list_sum_map_lt _ _ hne (fun sp hsp => ?_)
    refine mul_lt_mul_of_pos_left ?_ (hw sp hsp)
    simp only [calc_vp_next]
    refine hvPanti ?_
    gcongr
  have hCanti : ∀ x y : ℝ, x < y →
      uFunc_derinv CRRA
        (DiscFacEff * Rfree * PermGroFac ^ (-CRRA) *
          expected (fun s => calc_vp_next s x Rfree CRRA PermGroFac vPfuncNext)
            IncShkDstn) <
      uFunc_derinv CRRA
        (DiscFacEff * Rfree * PermGroFac ^ (-CRRA) *
          expected (fun s => calc_vp_next s y Rfree CRRA PermGroFac vPfuncNext)
            IncShkDstn) := by
    intro x y hxy
    simp only [uFunc_derinv]
    refine Real.rpow_lt_rpow_of_neg (hEpos y) (hEanti x y hxy) ?_
    have : 0 < 1 / CRRA := by positivity
    linarith
  refine ⟨?_, ?_, ?_, ?_⟩
  · simp [List.length_map, List.length_zipWith]
  · intro i ha hg
    simp [List.get_eq_getElem, List.getElem_map]
  · intro i hm hc ha
    simp [List.get_eq_getElem, List.getElem_zipWith, List.getElem_map]
  · intro hgrid
    constructor
    · exact List.pairwise_map.mpr (hgrid.imp (fun h => by linarith))
    · rw [List.map_map, List.map_map, List.zipWith_map, List.zipWith_same]
      refine List.pairwise_map.mpr (hgrid.imp (fun h => ?_))
      have hstep := hCanti _ _ (add_lt_add_right h mNrmMin)
      simp only [Function.comp] at hstep ⊢
      have := add_lt_add_right h mNrmMin
      linarith [hstep]

/-- Witness for C2: a two-point grid with a single degenerate income shock and
a strictly decreasing positive marginal value function yields strictly
increasing asset and resource grids. -/
theorem solve_egm_step_spec_witness :
    List.Pairwise (· < ·) ([0, 1] : List ℝ) ∧
    List.Pairwise (· < ·) ([(1 : ℝ), Real.exp 1 + 1]) := by
  have hgrid : List.Pairwise (· < ·) ([0, 1] : List ℝ) := by norm_num
  have hout : solve_egm_step [0, 1] 0 1 1 1 1 [((1, 0), 1)]
      (fun z => Real.exp (-z)) =
      ([0, 1], [1, Real.exp 1], [1, Real.exp 1 + 1], [1, Real.exp (-1)]) := by
    simp only [solve_egm_step, expected, calc_vp_next, uFunc_derinv,
      List.map_cons, List.map_nil, List.sum_cons, List.sum_nil,
      List.zipWith_cons_cons, List.zipWith_nil_right]
    norm_num [Real.rpow_neg_one, Real.exp_neg, Real.one_rpow]
  have h := (solve_egm_step_spec [0, 1] 0 1 1 1 1 [((1, 0), 1)]
      (fun z => Real.exp (-z)) [0, 1] [1, Real.exp 1] [1, Real.exp 1 + 1]
      [1, Real.exp (-1)] hout (by norm_num) (by norm_num) (by norm_num)
      (by norm_num) (by simp)
      (by
        rintro sp hsp
        simp only [List.mem_singleton] at hsp
        subst hsp
        norm_num)
      (by
        intro a b hab
        simpa using Real.exp_lt_exp.mpr (by linarith : -b < -a))
      (fun z => Real.exp_pos _)).2.2.2 hgrid
  exact ⟨hgrid, h.2⟩

/-- Claim C5, amended: prepare_to_solve performs no domain validation.  For
every input — including survival probabilities or discount products outside
(0,1) — it returns normally, with the effective discount factor computed
directly from the unclamped inputs as DiscFac * LivPrb; no error is raised
and no clamping occurs. -/
theorem prepare_to_solve_total_unclamped (solution_next : SolutionNext)
    (IncShkDstn : List ((ℝ × ℝ) × ℝ))
    (LivPrb DiscFac CRRA Rfree PermGroFac : ℝ) (BoroCnstArt : Option ℝ) :
    (prepare_to_solve solution_next IncShkDstn LivPrb DiscFac CRRA Rfree
      PermGroFac BoroCnstArt).DiscFacEff = DiscFac * LivPrb := by
  simp [prepare_to_solve]

/-- Counterexample for C5: with LivPrb = 3/2 outside (0,1) (and the product
DiscFac * LivPrb = 36/25 outside (0,1) as well), prepare_to_solve returns a
value computed from the unclamped inputs instead of raising a domain error. -/
theorem prepare_to_solve_no_domain_error :
    (prepare_to_solve ⟨0, 0, 1, 1⟩ [((1, 1), 1)] (3 / 2) (24 / 25) 2 (26 / 25)
      1 none).DiscFacEff = 36 / 25 := by
  simp only [prepare_to_solve]
  norm_num

/-- Claim C9: prepare_to_solve returns mNrmMin = max(natural, artificial); the
artificial constraint being strictly tighter than the natural one is
equivalent to BoroCnstNat < mNrmMin, in which case MPCmax collapses to 1.0,
and otherwise MPCmax is the unconstrained worst-income-probability value. -/
theorem prepare_to_solve_MPCmax_spec (solution_next : SolutionNext)
    (IncShkDstn : List ((ℝ × ℝ) × ℝ))
    (LivPrb DiscFac CRRA Rfree PermGroFac : ℝ) (BoroCnstArt : Option ℝ)
    (out : Prepared)
    (hout : prepare_to_solve solution_next IncShkDstn LivPrb DiscFac CRRA
      Rfree PermGroFac BoroCnstArt = out) :
    out.mNrmMin = calc_m_nrm_min BoroCnstArt out.BoroCnstNat ∧
    ((match BoroCnstArt with
      | none => False
      | some b => out.BoroCnstNat < b) ↔ out.BoroCnstNat < out.mNrmMin) ∧
    (out.BoroCnstNat < out.mNrmMin → out.MPCmax = 1) ∧
    (¬ out.BoroCnstNat < out.mNrmMin →
      out.MPCmax = calc_mpc_max solution_next.MPCmax
        (calc_worst_inc_prob IncShkDstn) CRRA
        (calc_patience_factor Rfree (DiscFac * LivPrb) CRRA)
        out.BoroCnstNat BoroCnstArt) := by
  subst hout
  simp only [prepare_to_solve]
  refine ⟨trivial, ?_, ?_, ?_⟩
  · cases BoroCnstArt with
    | none => simp [calc_m_nrm_min]
    | some b => simp [calc_m_nrm_min, lt_max_iff]
  · intro h
    rw [if_pos h]
  · intro h
    rw [if_neg h]

/-- Witness for C9: a concrete binding artificial constraint (natural
constraint -1, artificial constraint 1) collapses MPCmax to 1. -/
theorem prepare_to_solve_MPCmax_spec_witness :
    (prepare_to_solve ⟨0, 0, 1, 1⟩ [((1, 1), 1)] 1 1 1 1 1
        (some 1)).BoroCnstNat <
      (prepare_to_solve ⟨0, 0, 1, 1⟩ [((1, 1), 1)] 1 1 1 1 1
        (some 1)).mNrmMin ∧
    (prepare_to_solve ⟨0, 0, 1, 1⟩ [((1, 1), 1)] 1 1 1 1 1
      (some 1)).MPCmax = 1 := by
  have hlt : (prepare_to_solve ⟨0, 0, 1, 1⟩ [((1, 1), 1)] 1 1 1 1 1
      (some 1)).BoroCnstNat <
      (prepare_to_solve ⟨0, 0, 1, 1⟩ [((1, 1), 1)] 1 1 1 1 1
        (some 1)).mNrmMin := by
    simp only [prepare_to_solve, calc_boro_const_nat, calc_m_nrm_min]
    norm_num
  exact ⟨hlt,
    (prepare_to_solve_MPCmax_spec ⟨0, 0, 1, 1⟩ [((1, 1), 1)] 1 1 1 1 1
      (some 1) _ rfl).2.2.1 hlt⟩

/-- Claim C4: when the endogenous resource grid has no point strictly below
the cusp, or no point at or above it, the cusp builder returns exactly the
standard MoM build on the same inputs (tagged on the left of the sum that
separates the two wrapper types), and that standard build always succeeds —
the degenerate case raises no error. -/
theorem build_cfunc_mom_cusp_fallback (interpEval : Interp → DiffFunc)
    (DiscFacEff Rfree PermGroFac CRRA : ℝ)
    (IncShkDstn : List ((ℝ × ℝ) × ℝ)) (vPPfuncNext : ℝ → ℝ)
    (aNrm cNrm mNrm : List ℝ) (mNrmMin hNrm MPCmin MPCmax : ℝ)
    (CubicBool : Bool) (optimist pessimist tighter : SolnPF)
    (hdeg : (¬ ∃ x ∈ mNrm, x < calc_cusp_point hNrm mNrmMin MPCmin MPCmax) ∨
      (¬ ∃ x ∈ mNrm, ¬ x < calc_cusp_point hNrm mNrmMin MPCmin MPCmax)) :
    build_cfunc_mom_cusp interpEval DiscFacEff Rfree PermGroFac CRRA
        IncShkDstn vPPfuncNext aNrm cNrm mNrm mNrmMin hNrm MPCmin MPCmax
        CubicBool optimist pessimist tighter =
      Except.map Sum.inl
        (build_cfunc_mom interpEval DiscFacEff Rfree PermGroFac CRRA
          IncShkDstn vPPfuncNext aNrm cNrm mNrm mNrmMin hNrm MPCmin MPCmax
          CubicBool optimist pessimist) ∧
    ∃ F, build_cfunc_mom interpEval DiscFacEff Rfree PermGroFac CRRA
        IncShkDstn vPPfuncNext aNrm cNrm mNrm mNrmMin hNrm MPCmin MPCmax
        CubicBool optimist pessimist = Except.ok F := by
  constructor
  · simp only [build_cfunc_mom_cusp]
    rw [if_pos hdeg]
  · cases CubicBool <;> exact ⟨_, rfl⟩

/-- Witness for C4 at a degenerate one-point grid lying entirely at or above
the cusp point (cusp = 1, grid = [2]). -/
theorem build_cfunc_mom_cusp_fallback_witness :
    (¬ ∃ x ∈ ([2] : List ℝ), x < calc_cusp_point 1 0 (1 / 2) 1) ∧
    build_cfunc_mom_cusp (fun _ => ⟨fun _ => 0, fun _ => 0⟩) 1 1 1 1
        [((1, 0), 1)] (fun _ => 1) [1] [1] [2] 0 1 (1 / 2) 1 false
        ⟨⟨1, 1 / 2⟩, ⟨1, 1⟩⟩ ⟨⟨0, 1 / 2⟩, ⟨0, 1⟩⟩ ⟨⟨0, 1⟩, ⟨0, 1⟩⟩ =
      Except.map Sum.inl
        (build_cfunc_mom (fun _ => ⟨fun _ => 0, fun _ => 0⟩) 1 1 1 1
          [((1, 0), 1)] (fun _ => 1) [1] [1] [2] 0 1 (1 / 2) 1 false
          ⟨⟨1, 1 / 2⟩, ⟨1, 1⟩⟩ ⟨⟨0, 1 / 2⟩, ⟨0, 1⟩⟩) := by
  have hdeg : ¬ ∃ x ∈ ([2] : List ℝ), x < calc_cusp_point 1 0 (1 / 2) 1 := by
    rintro ⟨x, hx, hlt⟩
    simp only [List.mem_singleton] at hx
    subst hx
    rw [calc_cusp_point] at hlt
    norm_num at hlt
  exact ⟨hdeg,
    (build_cfunc_mom_cusp_fallback (fun _ => ⟨fun _ => 0, fun _ => 0⟩) 1 1 1 1
      [((1, 0), 1)] (fun _ => 1) [1] [1] [2] 0 1 (1 / 2) 1 false
      ⟨⟨1, 1 / 2⟩, ⟨1, 1⟩⟩ ⟨⟨0, 1 / 2⟩, ⟨0, 1⟩⟩ ⟨⟨0, 1⟩, ⟨0, 1⟩⟩
      (Or.inl hdeg)).1⟩

end MoM
